import Mathlib

/-!
Shallow embedding of the skill-symlink management CLI
(`src/cli/shared.ts`, `src/cli/commands/interactive.ts`,
`src/cli/commands/link.ts`, `src/cli/commands/list.ts`).

The filesystem is modelled as a flat finite map from full path strings to
entries (regular file with byte content, directory, or symbolic link storing
a raw target path), plus a set of paths on which `lstatSync`/`readlinkSync`
raise (permission-style exceptions).  Node.js semantics that matter here:

* `existsSync(p)` follows symbolic links (chains included); it returns
  `false` for a dangling link and never throws.
* `lstatSync(p)` / `readlinkSync(p)` inspect the entry itself without
  following it; on a denied path they throw (modelled by the `denied` set).
* `symlinkSync(src, tgt)` throws `EEXIST` if any entry — including a
  dangling symlink — already occupies `tgt`.
* `unlinkSync(p)` removes the entry at `p` itself.
-/

namespace SkillsCLI

/-- Filesystem entry as distinguished by `lstat`: a regular file (with its
byte content), a directory, or a symbolic link storing a raw target path. -/
inductive FSEntry where
  | file (content : List Nat)
  | dir
  | symlink (target : String)
deriving DecidableEq, Repr

/-- Mirrors `stats.isSymbolicLink()`. -/
def FSEntry.isSymbolicLink : FSEntry → Bool
  | FSEntry.symlink _ => true
  | _ => false

/-- Flat association list from full path to entry. -/
abbrev Entries := List (String × FSEntry)

/-- Direct lookup of the entry at a path (no symlink following):
the `lstat`-level view. -/
def lookupEntry : Entries → String → Option FSEntry
  | [], _ => none
  | (q, e) :: rest, p => if p = q then some e else lookupEntry rest p

/-- Removal of the entry at a path (`unlinkSync`). -/
def removeEntry : Entries → String → Entries
  | [], _ => []
  | (q, e) :: rest, p =>
    if q = p then removeEntry rest p else (q, e) :: removeEntry rest p

/-- Insertion of an entry at a path, replacing any previous entry. -/
def insertEntry (l : Entries) (p : String) (e : FSEntry) : Entries :=
  (p, e) :: removeEntry l p

/-- Filesystem state: the entries plus the set of paths whose `lstat` or
`readlink` inspection raises (permission-style failures).  `existsSync`
(stat-based, never throwing) is not affected by `denied`. -/
structure FS where
  entries : Entries
  denied : List String
deriving DecidableEq, Repr

/-- Fuel-bounded resolution of a path through chains of symbolic links. -/
def resolveAux : Nat → Entries → String → Option FSEntry
  | 0, _, _ => none
  | Nat.succ n, l, p =>
    match lookupEntry l p with
    | some (FSEntry.symlink t) => resolveAux n l t
    | some e => some e
    | none => none

/-- Mirrors Node's `existsSync`: follows symbolic links, so it reports
`false` on a dangling link (and on a symlink cycle, where the real call
errors out and `existsSync` swallows the error). -/
def existsSync (fs : FS) (p : String) : Bool :=
  (resolveAux (fs.entries.length + 1) fs.entries p).isSome

/-- Mirrors `path.join(dir, name)` for the simple two-component case. -/
def joinPath (dir name : String) : String := dir ++ "/" ++ name

/-- The part of `LocalContext` (src/cli/context.ts) the shared logic uses:
the skills root and the target directory. -/
structure LocalContext where
  skillsDir : String
  targetDir : String
deriving DecidableEq, Repr

/-- The `Skill` record of src/cli/shared.ts. -/
structure Skill where
  name : String
  isLinked : Bool
  isBroken : Bool
deriving DecidableEq, Repr

/-- Embeds `getSymlinkStatus` (src/cli/shared.ts:36-60).  The try/catch
around `lstatSync`/`readlinkSync` is modelled by the `denied` set; the
dead-looking `isBroken = !existsSync(targetPath)` assignment is embedded
verbatim. -/
def getSymlinkStatus (ctx : LocalContext) (fs : FS) (skillName : String) : Skill :=
  let targetPath := joinPath ctx.targetDir skillName
  let sourcePath := joinPath ctx.skillsDir skillName
  if existsSync fs targetPath then
    if targetPath ∈ fs.denied then
      { name := skillName, isLinked := false, isBroken := true }
    else
      match lookupEntry fs.entries targetPath with
      | some (FSEntry.symlink linkTarget) =>
        { name := skillName
          isLinked := linkTarget = sourcePath
          isBroken := !existsSync fs targetPath }
      | _ => { name := skillName, isLinked := false, isBroken := false }
  else
    { name := skillName, isLinked := false, isBroken := false }

/-- Embeds `ensureTargetDir` (src/cli/shared.ts:62-69). -/
def ensureTargetDir (ctx : LocalContext) (fs : FS) : FS :=
  if existsSync fs ctx.targetDir then fs
  else { fs with entries := insertEntry fs.entries ctx.targetDir FSEntry.dir }

/-- Outcome of `linkSkill`: success, the skill-not-found stderr report, the
conflict ("exists but is not a symlink") stderr report, or an uncaught
exception escaping the function (`lstatSync` on a denied path, or
`symlinkSync` raising `EEXIST` on an occupied path). -/
inductive LinkResult where
  | linked
  | skillNotFound
  | conflict
  | exn
deriving DecidableEq, Repr

/-- Embeds `linkSkill` (src/cli/shared.ts:71-103).  Note the guard is
`existsSync(targetPath)`, which follows links: a dangling symlink at the
target path skips the replace branch and `symlinkSync` then raises
`EEXIST`. -/
def linkSkill (ctx : LocalContext) (fs₀ : FS) (skillName : String) : FS × LinkResult :=
  let fs := ensureTargetDir ctx fs₀
  let sourcePath := joinPath ctx.skillsDir skillName
  let targetPath := joinPath ctx.targetDir skillName
  if !existsSync fs sourcePath then
    (fs, LinkResult.skillNotFound)
  else if existsSync fs targetPath then
    if targetPath ∈ fs.denied then (fs, LinkResult.exn)
    else
      match lookupEntry fs.entries targetPath with
      | some (FSEntry.symlink _) =>
        ({ fs with entries :=
            insertEntry fs.entries targetPath (FSEntry.symlink sourcePath) },
          LinkResult.linked)
      | _ => (fs, LinkResult.conflict)
  else
    match lookupEntry fs.entries targetPath with
    | none =>
      ({ fs with entries :=
          insertEntry fs.entries targetPath (FSEntry.symlink sourcePath) },
        LinkResult.linked)
    | some _ => (fs, LinkResult.exn)

/-- Outcome of `unlinkSkill`: symlink removed, the "is not linked" no-op
report, the conflict stderr report, or an uncaught `lstatSync` exception. -/
inductive UnlinkResult where
  | unlinked
  | notLinked
  | conflict
  | exn
deriving DecidableEq, Repr

/-- Embeds `unlinkSkill` (src/cli/shared.ts:105-129).  The guard is again
the link-following `existsSync`, so a dangling symlink is reported "is not
linked" and left in place. -/
def unlinkSkill (ctx : LocalContext) (fs : FS) (skillName : String) : FS × UnlinkResult :=
  let targetPath := joinPath ctx.targetDir skillName
  if !existsSync fs targetPath then
    (fs, UnlinkResult.notLinked)
  else if targetPath ∈ fs.denied then (fs, UnlinkResult.exn)
  else
    match lookupEntry fs.entries targetPath with
    | some (FSEntry.symlink _) =>
      ({ fs with entries := removeEntry fs.entries targetPath }, UnlinkResult.unlinked)
    | _ => (fs, UnlinkResult.conflict)

/-- One `Dirent` of `readdirSync(skillsDir, { withFileTypes: true })`:
its name and whether `entry.isDirectory()` holds. -/
structure DirEntry where
  name : String
  isDir : Bool
deriving DecidableEq, Repr

/-- Embeds the listing part of `getAvailableSkills`
(src/cli/shared.ts:29-33): keep directories, take names, `.sort()`. -/
def getAvailableSkills (entries : List DirEntry) : List String :=
  ((entries.filter (fun e => e.isDir)).map (fun e => e.name)).mergeSort
    (fun a b => a ≤ b)

/-- The three status icons of src/cli/colors.ts. -/
inductive Icon where
  | linked
  | unlinked
  | broken
deriving DecidableEq, Repr

/-- Embeds `getIcon` (src/cli/shared.ts:131-139). -/
def getIcon (skill : Skill) : Icon :=
  if skill.isLinked then Icon.linked
  else if skill.isBroken then Icon.broken
  else Icon.unlinked

/-- A single operation applied by the interactive reconciler. -/
inductive Op where
  | link (name : String)
  | unlink (name : String)
deriving DecidableEq, Repr

/-- Names of the currently linked skills, in status-list order
(`statusList.filter((s) => s.isLinked).map((s) => s.name)`,
src/cli/commands/interactive.ts:139-141). -/
def currentlyLinkedNames (statusList : List Skill) : List String :=
  (statusList.filter (fun s => s.isLinked)).map (fun s => s.name)

/-- Embeds the apply phase of the interactive reconciler
(src/cli/commands/interactive.ts:138-153): `linkSkill` for every selected
name not currently linked, then `unlinkSkill` for every currently linked
name not selected, in iteration order. -/
def interactiveOps (statusList : List Skill) (selectedSkills : List String) : List Op :=
  let currentlyLinked := currentlyLinkedNames statusList
  (selectedSkills.filter (fun n => ¬ n ∈ currentlyLinked)).map Op.link
    ++ (currentlyLinked.filter (fun n => ¬ n ∈ selectedSkills)).map Op.unlink

/-- Embeds the single-shot `link <name>` command (src/cli/commands/link.ts):
it calls `linkSkill` and returns; the process exit code is `0` unless an
exception escapes the command function (in which case the stricli runner
reports a failure exit code). -/
def linkCommandRun (ctx : LocalContext) (fs : FS) (name : String) :
    FS × LinkResult × Nat :=
  let r := linkSkill ctx fs name
  (r.1, r.2, match r.2 with
    | LinkResult.exn => 1
    | _ => 0)

end SkillsCLI

namespace SkillsCLI

/-! ### Basic lemmas about the filesystem map -/

theorem lookupEntry_removeEntry (l : Entries) (p q : String) :
    lookupEntry (removeEntry l p) q = if q = p then none else lookupEntry l q := by
  induction l with
  | nil => simp [removeEntry, lookupEntry]
  | cons he rest ih =>
    obtain ⟨a, e⟩ := he
    simp only [removeEntry, lookupEntry]
    by_cases hap : a = p <;> by_cases hqa : q = a <;> by_cases hqp : q = p <;>
      simp_all [lookupEntry]

theorem lookupEntry_insertEntry (l : Entries) (p q : String) (e : FSEntry) :
    lookupEntry (insertEntry l p e) q = if q = p then some e else lookupEntry l q := by
  simp only [insertEntry, lookupEntry, lookupEntry_removeEntry]
  by_cases hqp : q = p <;> simp [hqp]

theorem lookupEntry_ne_nil {l : Entries} {p : String} {e : FSEntry}
    (h : lookupEntry l p = some e) : l ≠ [] := by
  intro hl
  subst hl
  simp [lookupEntry] at h

/-! ### Lemmas about symlink resolution and `existsSync` -/

theorem resolveAux_of_none {l : Entries} {p : String} (h : lookupEntry l p = none)
    (n : Nat) : resolveAux n l p = none := by
  cases n with
  | zero => rfl
  | succ n => simp [resolveAux, h]

theorem resolveAux_of_nonlink {l : Entries} {p : String} {e : FSEntry}
    (h : lookupEntry l p = some e) (he : e.isSymbolicLink = false) (n : Nat) :
    resolveAux (n + 1) l p = some e := by
  cases e <;> simp_all [resolveAux, FSEntry.isSymbolicLink]

theorem resolveAux_of_symlink {l : Entries} {p t : String}
    (h : lookupEntry l p = some (FSEntry.symlink t)) (n : Nat) :
    resolveAux (n + 1) l p = resolveAux n l t := by
  simp [resolveAux, h]

theorem existsSync_of_nonlink {fs : FS} {p : String} {e : FSEntry}
    (h : lookupEntry fs.entries p = some e) (he : e.isSymbolicLink = false) :
    existsSync fs p = true := by
  simp [existsSync, resolveAux_of_nonlink h he]

theorem existsSync_of_none {fs : FS} {p : String}
    (h : lookupEntry fs.entries p = none) : existsSync fs p = false := by
  simp [existsSync, resolveAux_of_none h]

theorem existsSync_dangling {fs : FS} {p t : String}
    (h : lookupEntry fs.entries p = some (FSEntry.symlink t))
    (ht : lookupEntry fs.entries t = none) :
    existsSync fs p = false := by
  simp [existsSync, resolveAux_of_symlink h, resolveAux_of_none ht]

theorem existsSync_link_step {fs : FS} {p t : String} {e : FSEntry}
    (h : lookupEntry fs.entries p = some (FSEntry.symlink t))
    (ht : lookupEntry fs.entries t = some e) (he : e.isSymbolicLink = false) :
    existsSync fs p = true := by
  have hne : fs.entries ≠ [] := lookupEntry_ne_nil h
  obtain ⟨k, hk⟩ : ∃ k, fs.entries.length = k + 1 := by
    cases hl : fs.entries with
    | nil => exact absurd hl hne
    | cons a as => exact ⟨as.length, by simp⟩
  unfold existsSync
  rw [hk, resolveAux_of_symlink h, resolveAux_of_nonlink ht he]
  rfl

end SkillsCLI

namespace SkillsCLI

/-! ### Claim theorems -/

/-- Claim C9: for every context, filesystem state and skill name, the record
returned by `getSymlinkStatus` never has `isLinked` and `isBroken` both
true, so the three displayed statuses are mutually exclusive. -/
theorem getSymlinkStatus_not_linked_and_broken (ctx : LocalContext) (fs : FS)
    (skillName : String) :
    ¬((getSymlinkStatus ctx fs skillName).isLinked = true ∧
      (getSymlinkStatus ctx fs skillName).isBroken = true) := by
  simp only [getSymlinkStatus]
  by_cases hex : existsSync fs (joinPath ctx.targetDir skillName) = true
  · by_cases hden : joinPath ctx.targetDir skillName ∈ fs.denied
    · simp [hex, hden]
    · cases hl : lookupEntry fs.entries (joinPath ctx.targetDir skillName) with
      | none => simp [hex, hden, hl]
      | some e =>
        cases e with
        | file c => simp [hex, hden, hl]
        | dir => simp [hex, hden, hl]
        | symlink t => simp [hex, hden, hl]
  · simp [hex]

/-- Claim C4 (code bug): on a dangling symbolic link —
`target/a` is a symlink to the nonexistent path `tgt/missing` — the probe
reports `{isLinked := false, isBroken := false}` (displayed as Unlinked),
not Broken as the claim states: `existsSync` follows the link, returns
`false`, and the inspection branch (including the dead
`isBroken = !existsSync(targetPath)` assignment) is never reached. -/
theorem getSymlinkStatus_dangling_not_broken :
    getSymlinkStatus { skillsDir := "src", targetDir := "tgt" }
        { entries := [("src/a", FSEntry.dir), ("tgt/a", FSEntry.symlink "tgt/missing")],
          denied := [] } "a"
      = { name := "a", isLinked := false, isBroken := false } := by decide

/-- Claim C6 (code bug): when `target/wp-cli` is a symlink whose target no
longer resolves, `linkSkill` does not replace it: the link-following
`existsSync` guard misses the entry, `symlinkSync` raises `EEXIST`
(an uncaught exception), and the old dangling symlink is still in place
afterwards — contradicting the claim that `link` succeeds by replacing the
symlink regardless of its current target. -/
theorem linkSkill_dangling_eexist :
    (linkSkill { skillsDir := "src", targetDir := "tgt" }
        { entries := [("tgt", FSEntry.dir), ("src/wp-cli", FSEntry.dir),
            ("tgt/wp-cli", FSEntry.symlink "src-old/wp-cli")],
          denied := [] } "wp-cli").2 = LinkResult.exn ∧
    lookupEntry (linkSkill { skillsDir := "src", targetDir := "tgt" }
        { entries := [("tgt", FSEntry.dir), ("src/wp-cli", FSEntry.dir),
            ("tgt/wp-cli", FSEntry.symlink "src-old/wp-cli")],
          denied := [] } "wp-cli").1.entries "tgt/wp-cli"
      = some (FSEntry.symlink "src-old/wp-cli") := by decide

/-- Claim C3 (code bug): the skill `a` is present in the skills root and
`target/a` is a symbolic link (to the stale path `gone`), yet
`linkSkill` fails with an uncaught `EEXIST` exception and the subsequent
probe still does not report Linked — refuting the claim for the dangling
part of its "absent or a symbolic link" hypothesis (the absent and
resolving-symlink cases do yield Linked; see the supporting lemma
`linkSkill_resolving_roundtrip`). -/
theorem linkSkill_dangling_breaks_roundtrip :
    (linkSkill { skillsDir := "src", targetDir := "tgt" }
        { entries := [("tgt", FSEntry.dir), ("src/a", FSEntry.dir),
            ("tgt/a", FSEntry.symlink "gone")], denied := [] } "a").2 = LinkResult.exn ∧
    getSymlinkStatus { skillsDir := "src", targetDir := "tgt" }
        (linkSkill { skillsDir := "src", targetDir := "tgt" }
          { entries := [("tgt", FSEntry.dir), ("src/a", FSEntry.dir),
              ("tgt/a", FSEntry.symlink "gone")], denied := [] } "a").1 "a"
      ≠ { name := "a", isLinked := true, isBroken := false } := by decide

/-- Claim C10: when `target/<name>` is a dangling symbolic link (the entry
is a symlink whose stored target path has no entry), `unlinkSkill` performs
no filesystem mutation: it reports "is not linked" and the dangling entry
is still present afterwards. -/
theorem unlinkSkill_dangling_noop (ctx : LocalContext) (fs : FS) (skillName t : String)
    (h : lookupEntry fs.entries (joinPath ctx.targetDir skillName)
      = some (FSEntry.symlink t))
    (ht : lookupEntry fs.entries t = none) :
    unlinkSkill ctx fs skillName = (fs, UnlinkResult.notLinked) ∧
    lookupEntry (unlinkSkill ctx fs skillName).1.entries
        (joinPath ctx.targetDir skillName) = some (FSEntry.symlink t) := by
  have hex : existsSync fs (joinPath ctx.targetDir skillName) = false :=
    existsSync_dangling h ht
  constructor
  · simp [unlinkSkill, hex]
  · simp [unlinkSkill, hex, h]

/-- Witness for C10 at a concrete dangling link. -/
theorem unlinkSkill_dangling_noop_witness :
    unlinkSkill { skillsDir := "src", targetDir := "tgt" }
        { entries := [("tgt", FSEntry.dir), ("tgt/pr", FSEntry.symlink "src-old/pr")],
          denied := [] } "pr"
      = ({ entries := [("tgt", FSEntry.dir), ("tgt/pr", FSEntry.symlink "src-old/pr")],
            denied := [] }, UnlinkResult.notLinked) :=
  (unlinkSkill_dangling_noop { skillsDir := "src", targetDir := "tgt" }
    { entries := [("tgt", FSEntry.dir), ("tgt/pr", FSEntry.symlink "src-old/pr")],
      denied := [] } "pr" "src-old/pr" (by decide) (by decide)).1

end SkillsCLI

namespace SkillsCLI

/-! ### Behavioural lemmas for `linkSkill` and `unlinkSkill` -/

theorem joinPath_ne_left (dir name : String) : joinPath dir name ≠ dir := by
  intro h
  have hlen := congrArg String.length h
  simp [joinPath, String.length_append] at hlen
  have hone : "/".length = 1 := rfl
  omega

/-- Linking a skill whose source directory exists into a free target slot
succeeds and installs the symlink, leaving the source entry and the denied
set unchanged. -/
theorem linkSkill_fresh (ctx : LocalContext) (fs : FS) (skillName : String)
    (hsrc : lookupEntry fs.entries (joinPath ctx.skillsDir skillName) = some FSEntry.dir)
    (htgt : lookupEntry fs.entries (joinPath ctx.targetDir skillName) = none) :
    (linkSkill ctx fs skillName).2 = LinkResult.linked ∧
    lookupEntry (linkSkill ctx fs skillName).1.entries (joinPath ctx.targetDir skillName)
      = some (FSEntry.symlink (joinPath ctx.skillsDir skillName)) ∧
    lookupEntry (linkSkill ctx fs skillName).1.entries (joinPath ctx.skillsDir skillName)
      = some FSEntry.dir ∧
    (linkSkill ctx fs skillName).1.denied = fs.denied := by
  have hspE : existsSync fs (joinPath ctx.skillsDir skillName) = true :=
    existsSync_of_nonlink hsrc rfl
  have hne : joinPath ctx.skillsDir skillName ≠ joinPath ctx.targetDir skillName := by
    intro h
    rw [h, htgt] at hsrc
    cases hsrc
  by_cases htd : existsSync fs ctx.targetDir = true
  · have hens : ensureTargetDir ctx fs = fs := by simp [ensureTargetDir, htd]
    have htgtE : existsSync fs (joinPath ctx.targetDir skillName) = false :=
      existsSync_of_none htgt
    refine ⟨?_, ?_, ?_, ?_⟩ <;>
      simp [linkSkill, hens, hspE, htgtE, htgt, lookupEntry_insertEntry, hne, hsrc]
  · have htd' : existsSync fs ctx.targetDir = false := by simpa using htd
    have hnetd : joinPath ctx.skillsDir skillName ≠ ctx.targetDir := by
      intro h
      rw [h] at hspE
      rw [hspE] at htd'
      cases htd'
    have hens : ensureTargetDir ctx fs
        = { fs with entries := insertEntry fs.entries ctx.targetDir FSEntry.dir } := by
      simp [ensureTargetDir, htd']
    have h1 : lookupEntry (insertEntry fs.entries ctx.targetDir FSEntry.dir)
        (joinPath ctx.skillsDir skillName) = some FSEntry.dir := by
      rw [lookupEntry_insertEntry, if_neg hnetd]
      exact hsrc
    have h2 : lookupEntry (insertEntry fs.entries ctx.targetDir FSEntry.dir)
        (joinPath ctx.targetDir skillName) = none := by
      rw [lookupEntry_insertEntry, if_neg (joinPath_ne_left ctx.targetDir skillName)]
      exact htgt
    have hspE' : existsSync { fs with entries := insertEntry fs.entries ctx.targetDir FSEntry.dir }
        (joinPath ctx.skillsDir skillName) = true := existsSync_of_nonlink h1 rfl
    have htgtE' : existsSync { fs with entries := insertEntry fs.entries ctx.targetDir FSEntry.dir }
        (joinPath ctx.targetDir skillName) = false := existsSync_of_none h2
    refine ⟨?_, ?_, ?_, ?_⟩ <;>
      simp [linkSkill, hens, hspE', htgtE', h1, h2, lookupEntry_insertEntry, hne]

/-- Linking over an existing symlink whose target resolves removes it and
installs the fresh symlink (the replace branch of `linkSkill`). -/
theorem linkSkill_replace (ctx : LocalContext) (fs : FS) (skillName t : String)
    (hsrc : lookupEntry fs.entries (joinPath ctx.skillsDir skillName) = some FSEntry.dir)
    (htgt : lookupEntry fs.entries (joinPath ctx.targetDir skillName)
      = some (FSEntry.symlink t))
    (hexT : existsSync fs (joinPath ctx.targetDir skillName) = true)
    (hden : joinPath ctx.targetDir skillName ∉ fs.denied)
    (htd : existsSync fs ctx.targetDir = true) :
    (linkSkill ctx fs skillName).2 = LinkResult.linked ∧
    lookupEntry (linkSkill ctx fs skillName).1.entries (joinPath ctx.targetDir skillName)
      = some (FSEntry.symlink (joinPath ctx.skillsDir skillName)) ∧
    lookupEntry (linkSkill ctx fs skillName).1.entries (joinPath ctx.skillsDir skillName)
      = some FSEntry.dir ∧
    (linkSkill ctx fs skillName).1.denied = fs.denied := by
  have hspE : existsSync fs (joinPath ctx.skillsDir skillName) = true :=
    existsSync_of_nonlink hsrc rfl
  have hne : joinPath ctx.skillsDir skillName ≠ joinPath ctx.targetDir skillName := by
    intro h
    rw [h, htgt] at hsrc
    cases hsrc
  have hens : ensureTargetDir ctx fs = fs := by simp [ensureTargetDir, htd]
  refine ⟨?_, ?_, ?_, ?_⟩ <;>
    simp [linkSkill, hens, hspE, hexT, hden, htgt, lookupEntry_insertEntry, hne, hsrc]

/-- The probe reports Linked when the target slot holds a symlink storing
exactly the source path and the source directory exists. -/
theorem status_of_linked_entries (ctx : LocalContext) (fs : FS) (skillName : String)
    (h1 : lookupEntry fs.entries (joinPath ctx.targetDir skillName)
      = some (FSEntry.symlink (joinPath ctx.skillsDir skillName)))
    (h2 : lookupEntry fs.entries (joinPath ctx.skillsDir skillName) = some FSEntry.dir)
    (hden : joinPath ctx.targetDir skillName ∉ fs.denied) :
    getSymlinkStatus ctx fs skillName
      = { name := skillName, isLinked := true, isBroken := false } := by
  have hex : existsSync fs (joinPath ctx.targetDir skillName) = true :=
    existsSync_link_step h1 h2 rfl
  simp [getSymlinkStatus, hex, hden, h1]

/-- Unlinking a skill whose target entry is a symlink that resolves removes
exactly that entry. -/
theorem unlinkSkill_linked (ctx : LocalContext) (fs : FS) (skillName t : String)
    (h1 : lookupEntry fs.entries (joinPath ctx.targetDir skillName)
      = some (FSEntry.symlink t))
    (hex : existsSync fs (joinPath ctx.targetDir skillName) = true)
    (hden : joinPath ctx.targetDir skillName ∉ fs.denied) :
    unlinkSkill ctx fs skillName
      = ({ fs with entries := removeEntry fs.entries (joinPath ctx.targetDir skillName) },
          UnlinkResult.unlinked) := by
  simp [unlinkSkill, hex, hden, h1]

end SkillsCLI

namespace SkillsCLI

/-- Linking a present skill whose target slot is free or holds a symlink
that resolves yields Linked, and the link–unlink–link round trip ends
Linked with the symlink storing the source path (supporting analysis for
claim C3: every case of its hypothesis except the dangling symlink works;
the dangling case is the recorded code bug). -/
theorem linkSkill_resolving_roundtrip (ctx : LocalContext) (fs : FS) (skillName : String)
    (hsrc : lookupEntry fs.entries (joinPath ctx.skillsDir skillName) = some FSEntry.dir)
    (htd : existsSync fs ctx.targetDir = true)
    (hden : joinPath ctx.targetDir skillName ∉ fs.denied)
    (htgt : lookupEntry fs.entries (joinPath ctx.targetDir skillName) = none ∨
      ∃ t, lookupEntry fs.entries (joinPath ctx.targetDir skillName)
          = some (FSEntry.symlink t) ∧
        existsSync fs (joinPath ctx.targetDir skillName) = true) :
    (linkSkill ctx fs skillName).2 = LinkResult.linked ∧
    getSymlinkStatus ctx (linkSkill ctx fs skillName).1 skillName
      = { name := skillName, isLinked := true, isBroken := false } ∧
    (unlinkSkill ctx (linkSkill ctx fs skillName).1 skillName).2 = UnlinkResult.unlinked ∧
    (linkSkill ctx (unlinkSkill ctx (linkSkill ctx fs skillName).1 skillName).1 skillName).2
      = LinkResult.linked ∧
    getSymlinkStatus ctx
        (linkSkill ctx (unlinkSkill ctx (linkSkill ctx fs skillName).1 skillName).1
          skillName).1 skillName
      = { name := skillName, isLinked := true, isBroken := false } ∧
    lookupEntry (linkSkill ctx (unlinkSkill ctx (linkSkill ctx fs skillName).1 skillName).1
        skillName).1.entries (joinPath ctx.targetDir skillName)
      = some (FSEntry.symlink (joinPath ctx.skillsDir skillName)) := by
  have step1 : (linkSkill ctx fs skillName).2 = LinkResult.linked ∧
      lookupEntry (linkSkill ctx fs skillName).1.entries (joinPath ctx.targetDir skillName)
        = some (FSEntry.symlink (joinPath ctx.skillsDir skillName)) ∧
      lookupEntry (linkSkill ctx fs skillName).1.entries (joinPath ctx.skillsDir skillName)
        = some FSEntry.dir ∧
      (linkSkill ctx fs skillName).1.denied = fs.denied := by
    rcases htgt with h | ⟨t, h, hexT⟩
    · exact linkSkill_fresh ctx fs skillName hsrc h
    · exact linkSkill_replace ctx fs skillName t hsrc h hexT hden htd
  obtain ⟨hr1, h1tp, h1sp, h1d⟩ := step1
  have hden1 : joinPath ctx.targetDir skillName ∉ (linkSkill ctx fs skillName).1.denied := by
    rw [h1d]
    exact hden
  have hstat1 := status_of_linked_entries ctx (linkSkill ctx fs skillName).1 skillName
    h1tp h1sp hden1
  have hex1 : existsSync (linkSkill ctx fs skillName).1
      (joinPath ctx.targetDir skillName) = true := existsSync_link_step h1tp h1sp rfl
  have hr2 := unlinkSkill_linked ctx (linkSkill ctx fs skillName).1 skillName _ h1tp hex1 hden1
  have hne : joinPath ctx.skillsDir skillName ≠ joinPath ctx.targetDir skillName := by
    intro h
    rw [h, h1tp] at h1sp
    cases h1sp
  have h2sp : lookupEntry (unlinkSkill ctx (linkSkill ctx fs skillName).1 skillName).1.entries
      (joinPath ctx.skillsDir skillName) = some FSEntry.dir := by
    rw [hr2]
    simpa [lookupEntry_removeEntry, hne] using h1sp
  have h2tp : lookupEntry (unlinkSkill ctx (linkSkill ctx fs skillName).1 skillName).1.entries
      (joinPath ctx.targetDir skillName) = none := by
    rw [hr2]
    simp [lookupEntry_removeEntry]
  obtain ⟨hr3, h3tp, h3sp, h3d⟩ := linkSkill_fresh ctx
    (unlinkSkill ctx (linkSkill ctx fs skillName).1 skillName).1 skillName h2sp h2tp
  have hden3 : joinPath ctx.targetDir skillName
      ∉ (linkSkill ctx (unlinkSkill ctx (linkSkill ctx fs skillName).1 skillName).1
          skillName).1.denied := by
    rw [h3d, hr2]
    exact hden1
  have hstat3 := status_of_linked_entries ctx
    (linkSkill ctx (unlinkSkill ctx (linkSkill ctx fs skillName).1 skillName).1 skillName).1
    skillName h3tp h3sp hden3
  refine ⟨hr1, hstat1, ?_, hr3, hstat3, h3tp⟩
  rw [hr2]

/-- Claim C1: when the skill exists in the skills root, the target
directory exists, and the inspectable entry at target/<name> is not a
symbolic link, both `linkSkill` and `unlinkSkill` report the conflict and
return with the filesystem — in particular the occupying entry and its
content — completely unchanged. -/
theorem conflict_occupant_untouched (ctx : LocalContext) (fs : FS) (skillName : String)
    (e : FSEntry)
    (hsrc : lookupEntry fs.entries (joinPath ctx.skillsDir skillName) = some FSEntry.dir)
    (hocc : lookupEntry fs.entries (joinPath ctx.targetDir skillName) = some e)
    (hns : e.isSymbolicLink = false)
    (hden : joinPath ctx.targetDir skillName ∉ fs.denied)
    (htd : existsSync fs ctx.targetDir = true) :
    linkSkill ctx fs skillName = (fs, LinkResult.conflict) ∧
    unlinkSkill ctx fs skillName = (fs, UnlinkResult.conflict) := by
  have hens : ensureTargetDir ctx fs = fs := by simp [ensureTargetDir, htd]
  have hspE : existsSync fs (joinPath ctx.skillsDir skillName) = true :=
    existsSync_of_nonlink hsrc rfl
  have htgtE : existsSync fs (joinPath ctx.targetDir skillName) = true :=
    existsSync_of_nonlink hocc hns
  cases e with
  | symlink t => simp [FSEntry.isSymbolicLink] at hns
  | file c =>
    exact ⟨by simp [linkSkill, hens, hspE, htgtE, hden, hocc],
      by simp [unlinkSkill, htgtE, hden, hocc]⟩
  | dir =>
    exact ⟨by simp [linkSkill, hens, hspE, htgtE, hden, hocc],
      by simp [unlinkSkill, htgtE, hden, hocc]⟩

/-- Witness for C1: a regular file occupying target/commit is reported as a
conflict by both operations and is byte-identical afterwards. -/
theorem conflict_occupant_untouched_witness :
    linkSkill { skillsDir := "src", targetDir := "tgt" }
        { entries := [("tgt", FSEntry.dir), ("src/commit", FSEntry.dir),
            ("tgt/commit", FSEntry.file [104, 105])], denied := [] } "commit"
      = ({ entries := [("tgt", FSEntry.dir), ("src/commit", FSEntry.dir),
            ("tgt/commit", FSEntry.file [104, 105])], denied := [] }, LinkResult.conflict) ∧
    unlinkSkill { skillsDir := "src", targetDir := "tgt" }
        { entries := [("tgt", FSEntry.dir), ("src/commit", FSEntry.dir),
            ("tgt/commit", FSEntry.file [104, 105])], denied := [] } "commit"
      = ({ entries := [("tgt", FSEntry.dir), ("src/commit", FSEntry.dir),
            ("tgt/commit", FSEntry.file [104, 105])], denied := [] }, UnlinkResult.conflict) :=
  conflict_occupant_untouched { skillsDir := "src", targetDir := "tgt" }
    { entries := [("tgt", FSEntry.dir), ("src/commit", FSEntry.dir),
        ("tgt/commit", FSEntry.file [104, 105])], denied := [] } "commit"
    (FSEntry.file [104, 105]) (by decide) (by decide) (by decide) (by decide) (by decide)

end SkillsCLI

namespace SkillsCLI

/-- Claim C5 (counterexample): with an empty skills root the single-shot
`link a` reports the skill-not-found error on stderr (the `skillNotFound`
outcome) but the process exit code is `0`, not non-zero as claimed:
`linkSkill` returns normally after writing the message and the command
never signals failure. -/
theorem linkCommand_missing_skill_exit_zero :
    linkCommandRun { skillsDir := "src", targetDir := "tgt" }
        { entries := [("tgt", FSEntry.dir)], denied := [] } "a"
      = ({ entries := [("tgt", FSEntry.dir)], denied := [] },
          LinkResult.skillNotFound, 0) := by decide

/-- Claim C5 (amended): for every skill name with no entry at its source
path, `link <name>` reports the skill-not-found error on stderr and the
process exits with code 0; the resulting filesystem is exactly
`ensureTargetDir ctx fs`, so the only possible mutation is the creation of
a missing target directory, and when the target directory already exists
the filesystem is completely unchanged. -/
theorem linkCommand_missing_skill_reports (ctx : LocalContext) (fs : FS) (name : String)
    (hsrc : lookupEntry (ensureTargetDir ctx fs).entries (joinPath ctx.skillsDir name)
      = none) :
    linkCommandRun ctx fs name = (ensureTargetDir ctx fs, LinkResult.skillNotFound, 0) := by
  have hspE : existsSync (ensureTargetDir ctx fs) (joinPath ctx.skillsDir name) = false :=
    existsSync_of_none hsrc
  simp [linkCommandRun, linkSkill, hspE]

/-- Witness for the amended C5: the target directory already exists, so the
filesystem comes back unchanged with the skill-not-found report and exit
code 0. -/
theorem linkCommand_missing_skill_reports_witness :
    linkCommandRun { skillsDir := "src", targetDir := "tgt" }
        { entries := [("tgt", FSEntry.dir), ("src/pr", FSEntry.dir)], denied := [] } "stricli"
      = ({ entries := [("tgt", FSEntry.dir), ("src/pr", FSEntry.dir)], denied := [] },
          LinkResult.skillNotFound, 0) :=
  (linkCommand_missing_skill_reports { skillsDir := "src", targetDir := "tgt" }
    { entries := [("tgt", FSEntry.dir), ("src/pr", FSEntry.dir)], denied := [] } "stricli"
    (by decide)).trans (by decide)

/-- Claim C7 (counterexample): when a regular file occupies target/a, the
first `unlinkSkill` call reports the conflict error and mutates nothing, so
the second call in a row reports the very same conflict error — refuting
"calling unlink twice in a row produces no error on the second call" read
over every skill name. -/
theorem unlinkSkill_conflict_errors_twice :
    (unlinkSkill { skillsDir := "src", targetDir := "tgt" }
        { entries := [("tgt", FSEntry.dir), ("src/a", FSEntry.dir),
            ("tgt/a", FSEntry.file [7])], denied := [] } "a").2 = UnlinkResult.conflict ∧
    (unlinkSkill { skillsDir := "src", targetDir := "tgt" }
        (unlinkSkill { skillsDir := "src", targetDir := "tgt" }
          { entries := [("tgt", FSEntry.dir), ("src/a", FSEntry.dir),
              ("tgt/a", FSEntry.file [7])], denied := [] } "a").1 "a").2
      = UnlinkResult.conflict := by decide

/-- Claim C7 (amended): for every skill name whose target path is
inspectable, `unlinkSkill` followed by `getSymlinkStatus` yields Unlinked;
when target/<name> does not exist the call is the "is not linked" no-op;
and the second of two consecutive calls produces no error provided the
first did not report a conflict. -/
theorem unlinkSkill_unlinked_and_idempotent (ctx : LocalContext) (fs : FS)
    (skillName : String)
    (hden : joinPath ctx.targetDir skillName ∉ fs.denied) :
    getSymlinkStatus ctx (unlinkSkill ctx fs skillName).1 skillName
      = { name := skillName, isLinked := false, isBroken := false } ∧
    (existsSync fs (joinPath ctx.targetDir skillName) = false →
      unlinkSkill ctx fs skillName = (fs, UnlinkResult.notLinked)) ∧
    ((unlinkSkill ctx fs skillName).2 ≠ UnlinkResult.conflict →
      (unlinkSkill ctx (unlinkSkill ctx fs skillName).1 skillName).2
        = UnlinkResult.notLinked) := by
  by_cases hex : existsSync fs (joinPath ctx.targetDir skillName) = true
  · cases hl : lookupEntry fs.entries (joinPath ctx.targetDir skillName) with
    | none => simp [existsSync_of_none hl] at hex
    | some e =>
      cases e with
      | symlink t =>
        have hr := unlinkSkill_linked ctx fs skillName t hl hex hden
        have hl' : lookupEntry
            (removeEntry fs.entries (joinPath ctx.targetDir skillName))
            (joinPath ctx.targetDir skillName) = none := by
          simp [lookupEntry_removeEntry]
        have hex' : existsSync
            { fs with entries := removeEntry fs.entries (joinPath ctx.targetDir skillName) }
            (joinPath ctx.targetDir skillName) = false := existsSync_of_none hl'
        refine ⟨?_, ?_, ?_⟩
        · rw [hr]
          simp [getSymlinkStatus, hex']
        · intro h
          simp [h] at hex
        · intro _
          rw [hr]
          simp [unlinkSkill, hex']
      | file c =>
        have hr : unlinkSkill ctx fs skillName = (fs, UnlinkResult.conflict) := by
          simp [unlinkSkill, hex, hden, hl]
        refine ⟨?_, ?_, ?_⟩
        · rw [hr]
          simp [getSymlinkStatus, hex, hden, hl]
        · intro h
          simp [h] at hex
        · intro hc
          rw [hr] at hc
          simp at hc
      | dir =>
        have hr : unlinkSkill ctx fs skillName = (fs, UnlinkResult.conflict) := by
          simp [unlinkSkill, hex, hden, hl]
        refine ⟨?_, ?_, ?_⟩
        · rw [hr]
          simp [getSymlinkStatus, hex, hden, hl]
        · intro h
          simp [h] at hex
        · intro hc
          rw [hr] at hc
          simp at hc
  · have hex' : existsSync fs (joinPath ctx.targetDir skillName) = false := by
      simpa using hex
    have hr : unlinkSkill ctx fs skillName = (fs, UnlinkResult.notLinked) := by
      simp [unlinkSkill, hex']
    refine ⟨?_, fun _ => hr, ?_⟩
    · rw [hr]
      simp [getSymlinkStatus, hex']
    · intro _
      rw [hr]
      exact congrArg Prod.snd hr

/-- Witness for the amended C7 on a correctly linked skill. -/
theorem unlinkSkill_unlinked_and_idempotent_witness :
    getSymlinkStatus { skillsDir := "src", targetDir := "tgt" }
        (unlinkSkill { skillsDir := "src", targetDir := "tgt" }
          { entries := [("tgt", FSEntry.dir), ("src/a", FSEntry.dir),
              ("tgt/a", FSEntry.symlink "src/a")], denied := [] } "a").1 "a"
      = { name := "a", isLinked := false, isBroken := false } :=
  (unlinkSkill_unlinked_and_idempotent { skillsDir := "src", targetDir := "tgt" }
    { entries := [("tgt", FSEntry.dir), ("src/a", FSEntry.dir),
        ("tgt/a", FSEntry.symlink "src/a")], denied := [] } "a" (by decide)).1

end SkillsCLI

namespace SkillsCLI

/-- Claim C2: on confirm, the interactive reconciler applies exactly
`link n` for every selected name not currently linked (once each) and
`unlink n` for every currently linked name not selected (once each); a
skill both selected and currently linked receives no operation at all. -/
theorem interactiveOps_exact (statusList : List Skill) (selectedSkills : List String)
    (hsel : selectedSkills.Nodup)
    (hst : (statusList.map Skill.name).Nodup) :
    (∀ n, (interactiveOps statusList selectedSkills).count (Op.link n)
        = if n ∈ selectedSkills ∧ ¬ n ∈ currentlyLinkedNames statusList then 1 else 0) ∧
    (∀ n, (interactiveOps statusList selectedSkills).count (Op.unlink n)
        = if n ∈ currentlyLinkedNames statusList ∧ ¬ n ∈ selectedSkills then 1 else 0) ∧
    (∀ n, n ∈ selectedSkills → n ∈ currentlyLinkedNames statusList →
      ¬ Op.link n ∈ interactiveOps statusList selectedSkills ∧
      ¬ Op.unlink n ∈ interactiveOps statusList selectedSkills) := by
  have hL : (currentlyLinkedNames statusList).Nodup :=
    List.Nodup.sublist ((List.filter_sublist statusList).map Skill.name) hst
  have hinjl : Function.Injective Op.link := fun a b h => by injection h
  have hinju : Function.Injective Op.unlink := fun a b h => by injection h
  refine ⟨?_, ?_, ?_⟩
  · intro n
    simp only [interactiveOps, List.count_append]
    have hB : List.count (Op.link n)
        (((currentlyLinkedNames statusList).filter
          (fun m => ¬ m ∈ selectedSkills)).map Op.unlink) = 0 :=
      List.count_eq_zero_of_not_mem (by simp)
    rw [hB, Nat.add_zero, List.count_map_of_injective _ _ hinjl]
    by_cases hnL : n ∈ currentlyLinkedNames statusList
    · have hno : ¬ n ∈ selectedSkills.filter
          (fun m => ¬ m ∈ currentlyLinkedNames statusList) := by
        simp [List.mem_filter, hnL]
      rw [List.count_eq_zero_of_not_mem hno]
      simp [hnL]
    · rw [List.count_filter (by simp [hnL])]
      by_cases hns : n ∈ selectedSkills
      · rw [List.count_eq_one_of_mem hsel hns]
        simp [hns, hnL]
      · rw [List.count_eq_zero_of_not_mem hns]
        simp [hns]
  · intro n
    simp only [interactiveOps, List.count_append]
    have hA : List.count (Op.unlink n)
        ((selectedSkills.filter
          (fun m => ¬ m ∈ currentlyLinkedNames statusList)).map Op.link) = 0 :=
      List.count_eq_zero_of_not_mem (by simp)
    rw [hA, Nat.zero_add, List.count_map_of_injective _ _ hinju]
    by_cases hns : n ∈ selectedSkills
    · have hno : ¬ n ∈ (currentlyLinkedNames statusList).filter
          (fun m => ¬ m ∈ selectedSkills) := by
        simp [List.mem_filter, hns]
      rw [List.count_eq_zero_of_not_mem hno]
      simp [hns]
    · rw [List.count_filter (by simp [hns])]
      by_cases hnL : n ∈ currentlyLinkedNames statusList
      · rw [List.count_eq_one_of_mem hL hnL]
        simp [hns, hnL]
      · rw [List.count_eq_zero_of_not_mem hnL]
        simp [hnL]
  · intro n hns hnL
    constructor
    · simp [interactiveOps, List.mem_append, List.mem_filter, hnL]
    · simp [interactiveOps, List.mem_append, List.mem_filter, hns]

/-- Witness for C2: with current linked set {A, C} and selection {B, C},
exactly link(B) and unlink(A) are applied and C receives no operation. -/
theorem interactiveOps_exact_witness :
    (interactiveOps
        [{ name := "A", isLinked := true, isBroken := false },
          { name := "B", isLinked := false, isBroken := false },
          { name := "C", isLinked := true, isBroken := false }]
        ["B", "C"]).count (Op.link "B") = 1 ∧
    (interactiveOps
        [{ name := "A", isLinked := true, isBroken := false },
          { name := "B", isLinked := false, isBroken := false },
          { name := "C", isLinked := true, isBroken := false }]
        ["B", "C"]).count (Op.unlink "A") = 1 ∧
    ¬ Op.link "C" ∈ interactiveOps
        [{ name := "A", isLinked := true, isBroken := false },
          { name := "B", isLinked := false, isBroken := false },
          { name := "C", isLinked := true, isBroken := false }]
        ["B", "C"] := by
  have h := interactiveOps_exact
    [{ name := "A", isLinked := true, isBroken := false },
      { name := "B", isLinked := false, isBroken := false },
      { name := "C", isLinked := true, isBroken := false }]
    ["B", "C"] (by decide) (by decide)
  refine ⟨?_, ?_, (h.2.2 "C" (by decide) (by decide)).1⟩
  · rw [h.1 "B"]
    decide
  · rw [h.2.1 "A"]
    decide

/-- Claim C8: `getAvailableSkills` returns exactly the names of the
directory entries for which `isDirectory()` holds (files excluded), each
exactly once when the listing has no duplicate names, in sorted order. -/
theorem getAvailableSkills_exact (entries : List DirEntry)
    (h : (entries.map DirEntry.name).Nodup) :
    (∀ n, n ∈ getAvailableSkills entries ↔
      ∃ e, e ∈ entries ∧ e.isDir = true ∧ e.name = n) ∧
    (getAvailableSkills entries).Nodup ∧
    List.Sorted (fun a b : String => a ≤ b) (getAvailableSkills entries) := by
  refine ⟨?_, ?_, ?_⟩
  · intro n
    simp only [getAvailableSkills, List.mem_mergeSort, List.mem_map, List.mem_filter]
    constructor
    · rintro ⟨e, ⟨he, hd⟩, hn⟩
      exact ⟨e, he, hd, hn⟩
    · rintro ⟨e, he, hd, hn⟩
      exact ⟨e, ⟨he, hd⟩, hn⟩
  · refine (List.mergeSort_perm ((entries.filter (fun e => e.isDir)).map
      (fun e => e.name)) _).nodup_iff.mpr ?_
    exact List.Nodup.sublist ((List.filter_sublist entries).map DirEntry.name) h
  · exact List.sorted_mergeSort' ((entries.filter (fun e => e.isDir)).map (fun e => e.name))

/-- Witness for C8 on a listing mixing directories and a file. -/
theorem getAvailableSkills_exact_witness :
    ("commit" ∈ getAvailableSkills
        [{ name := "pr", isDir := true }, { name := "README.md", isDir := false },
          { name := "commit", isDir := true }]
      ↔ ∃ e, e ∈ [({ name := "pr", isDir := true } : DirEntry),
          { name := "README.md", isDir := false }, { name := "commit", isDir := true }] ∧
        e.isDir = true ∧ e.name = "commit") ∧
    (getAvailableSkills
        [{ name := "pr", isDir := true }, { name := "README.md", isDir := false },
          { name := "commit", isDir := true }]).Nodup :=
  ⟨(getAvailableSkills_exact
      [{ name := "pr", isDir := true }, { name := "README.md", isDir := false },
        { name := "commit", isDir := true }] (by decide)).1 "commit",
    (getAvailableSkills_exact
      [{ name := "pr", isDir := true }, { name := "README.md", isDir := false },
        { name := "commit", isDir := true }] (by decide)).2.1⟩

end SkillsCLI
